import Mathlib

/-!
Shallow embedding of the hyperspec registration pipeline
(src/hyperspec/registration.py) and of the cosine-similarity statistics
helpers (src/hyperspec/stats.py).

Machine floats are modelled by exact rationals (registration geometry)
or by reals (statistics, where a square root occurs).  The external
OpenCV routines that `register` merely orchestrates (feature detection,
descriptor matching, homography search, perspective warping, match
visualisation) are modelled as an oracle environment `CVEnv`; every
theorem about `register` is universally quantified over the behaviour
of those library calls.  `register` additionally returns a trace of the
library calls it performs, so that ordering and call-argument claims
can be stated.
-/

/-- A 3x3 homography matrix (row-major entries `hRC`), as produced by
`cv2.findHomography`. -/
structure Homog where
  h00 : ℚ
  h01 : ℚ
  h02 : ℚ
  h10 : ℚ
  h11 : ℚ
  h12 : ℚ
  h20 : ℚ
  h21 : ℚ
  h22 : ℚ
deriving DecidableEq, Repr

/-- Determinant of the upper-left 2x2 submatrix (`np.linalg.det(homog[:2, :2])`). -/
def det2x2 (H : Homog) : ℚ := H.h00 * H.h11 - H.h01 * H.h10

/-- Determinant of the full 3x3 matrix (`np.linalg.det(homog)`). -/
def det3x3 (H : Homog) : ℚ :=
  H.h00 * (H.h11 * H.h22 - H.h12 * H.h21)
    - H.h01 * (H.h10 * H.h22 - H.h12 * H.h20)
    + H.h02 * (H.h10 * H.h21 - H.h11 * H.h20)

/-- `cv2.perspectiveTransform` on a single point: the projective action of `H`. -/
def perspT (H : Homog) (p : ℚ × ℚ) : ℚ × ℚ :=
  let w := H.h20 * p.1 + H.h21 * p.2 + H.h22
  ((H.h00 * p.1 + H.h01 * p.2 + H.h02) / w, (H.h10 * p.1 + H.h11 * p.2 + H.h12) / w)

/-- `cv2.contourArea`: half the absolute value of the shoelace sum over the
closed polygon through the listed points. -/
def contourArea (ps : List (ℚ × ℚ)) : ℚ :=
  |(((ps.zip (ps.rotate 1)).map fun pq => pq.1.1 * pq.2.2 - pq.2.1 * pq.1.2).sum)| / 2

/-- The unit-square contour used by `validate_homography`, in source order
`[[0, 0], [1, 0], [1, 1], [0, 1]]`. -/
def unitSquare : List (ℚ × ℚ) := [(0, 0), (1, 0), (1, 1), (0, 1)]

/-- Area of the unit square transformed by `H`, exactly as the source computes
it: `cv2.contourArea(cv2.perspectiveTransform(points, homog))`. -/
def transformedUnitArea (H : Homog) : ℚ := contourArea (unitSquare.map (perspT H))

/-- `np.isclose(x, 0.0)` absolute tolerance: with the default
`atol=1e-8, rtol=1e-5` and second argument `0.0` the predicate is
`|x| <= 1e-8`. -/
def atol : ℚ := 1 / 100000000

/-- `validate_homography` (src/hyperspec/registration.py lines 23-48): the
four geometric checks, each raising `ValueError` (modelled as `Except.error`
with the source's message) when violated; returns normally otherwise. -/
def validate_homography (H : Homog) : Except String Unit :=
  if det2x2 H < 0 then
    Except.error "Homography does not preserve orientation"
  else if |det3x3 H| ≤ atol then
    Except.error "Homography transform is non-invertable"
  else if transformedUnitArea H < 9/10 ∨ 11/10 < transformedUnitArea H then
    Except.error "Homography does not preserve area to within a 10%"
  else if 1/1000 < |H.h20| ∨ 1/1000 < |H.h21| then
    Except.error "Homography results in large perspective shift"
  else
    Except.ok ()

/-- A 2-D image: rows of pixel values. -/
abbrev Image := List (List ℚ)

/-- A hyperspectral cube with axis order (y, x, band), matching
`result[1:-1, 1:-1, :]` in the source. -/
abbrev Cube := List (List (List ℚ))

/-- Pixel lookup in a 2-D image (0 outside the stored extent). -/
def Image.px (im : Image) (r c : ℕ) : ℚ := (im.getD r []).getD c 0

/-- Number of rows of a 2-D image (`shape[0]`). -/
def imRows (im : Image) : ℕ := im.length

/-- Number of columns of a 2-D image (`shape[1]`). -/
def imCols (im : Image) : ℕ := (im.headD []).length

/-- Element lookup in a cube (0 outside the stored extent). -/
def cubeAt (cu : Cube) (r c b : ℕ) : ℚ := ((cu.getD r []).getD c []).getD b 0

/-- Number of bands of a cube (the length of its last axis). -/
def cubeBands (cu : Cube) : ℕ := ((cu.headD []).headD []).length

/-- The 2-D image of one spectral band of a cube (`cube.sel(band=band)`). -/
def bandImage (cu : Cube) (b : ℕ) : Image :=
  cu.map fun row => row.map fun spec => spec.getD b 0

/-- Python slicing `l[1:-1]`: drop the first and the last entry. -/
def trim1 {α : Type} (l : List α) : List α := (l.drop 1).dropLast

/-- One iteration of the border crop, `result[1:-1, 1:-1, :]`: remove the
outermost row and the outermost column on all four edges of the first two
axes. -/
def crop1 (cu : Cube) : Cube := (trim1 cu).map trim1

/-- `np.any(result < 0)`: does the cube hold a negative element? -/
def hasNeg (cu : Cube) : Bool :=
  cu.any fun row => row.any fun spec => spec.any fun q => decide (q < 0)

/-- The `while np.any(result < 0)` crop loop, with explicit fuel so that the
definition is structurally recursive (and hence kernel-evaluable); returns
the final cube and the number of iterations (`_border_crop`). -/
def cropLoopF : ℕ → Cube → Cube × ℕ
  | 0, cu => (cu, 0)
  | fuel + 1, cu =>
    if hasNeg cu then
      let r := cropLoopF fuel (crop1 cu)
      (r.1, r.2 + 1)
    else (cu, 0)

/-- The crop loop of `register` (src/hyperspec/registration.py lines 127-132).
A fuel of `cu.length` rows always suffices: each iteration removes two rows
and an empty cube has no negative element. -/
def cropLoop (cu : Cube) : Cube × ℕ := cropLoopF cu.length cu

/-- A rectangular cube: every row has the width of the first row (numpy
arrays are never ragged; the list model must say so explicitly). -/
def rectCube (cu : Cube) : Prop := ∀ row ∈ cu, row.length = (cu.headD []).length

/-- A preview argument of `register`: its numpy `ndim` together with its
channel planes (`data ch` is the 2-D plane of channel `ch`; a 2-D preview is
plane 0). -/
structure RawPreview where
  ndim : ℕ
  data : ℕ → Image

/-- `cv2.cvtColor(..., cv2.COLOR_BGR2GRAY)`: the single-channel grayscale
image `0.299 R + 0.587 G + 0.114 B` over the extent of the first (blue)
plane; channel order is B, G, R. -/
def cvtColorBGR2GRAY (p : RawPreview) : Image :=
  (List.range (imRows (p.data 0))).map fun r =>
    (List.range (imCols (p.data 0))).map fun c =>
      299/1000 * Image.px (p.data 2) r c
        + 587/1000 * Image.px (p.data 1) r c
        + 114/1000 * Image.px (p.data 0) r c

/-- The preview actually used by `register`: converted to grayscale first
whenever `preview.ndim != 2` (src/hyperspec/registration.py lines 85-88). -/
def grayPreview (p : RawPreview) : Image :=
  if p.ndim = 2 then p.data 0 else cvtColorBGR2GRAY p

/-- A keypoint's coordinates (`KeyPoint.pt`). -/
abbrev Kp := ℚ × ℚ

/-- An ORB descriptor (a byte vector). -/
abbrev Desc := List ℕ

/-- A `cv2.DMatch`: indices into the query (source) and train (destination)
keypoint lists. -/
structure DMatch where
  queryIdx : ℕ
  trainIdx : ℕ
deriving DecidableEq, Repr

/-- The numeric value of the `cv2.RANSAC` method flag. -/
def RANSAC : ℕ := 8

/-- Oracle environment for the OpenCV/imutils library calls `register`
performs.  `detect` is `orb.detectAndCompute`, `bfMatch` is
`matcher.match`, `findHomography` is `cv2.findHomography` (arguments:
source points, destination points, method flag, RANSAC reprojection
threshold; `none` models both a `None` matrix and an estimation failure
raised as `cv2.error`), `warp` is `cv2.warpPerspective` (arguments: image,
homography, dsize as (width, height), border fill value), `drawMatches`
and `resizeWidth` produce the match visualisation. -/
structure CVEnv where
  detect : Image → List Kp × List Desc
  bfMatch : List Desc → List Desc → List DMatch
  findHomography : List Kp → List Kp → ℕ → ℚ → Option Homog
  warp : Image → Homog → ℕ × ℕ → ℚ → Image
  drawMatches : Image → List Kp → Image → List Kp → List DMatch → Image
  resizeWidth : Image → ℕ → Image

/-- The matches `matcher.match(descriptors_src, descriptors_dst)` of a run
of `register` on the given previews. -/
def matchesOf (env : CVEnv) (dp sp : RawPreview) : List DMatch :=
  env.bfMatch (env.detect (grayPreview sp)).2 (env.detect (grayPreview dp)).2

/-- `pts_src`: the source coordinates of the matched keypoints,
`keypoints_src[m.queryIdx].pt` for each match `m`. -/
def estPtsSrc (env : CVEnv) (dp sp : RawPreview) : List Kp :=
  (matchesOf env dp sp).map fun m => ((env.detect (grayPreview sp)).1).getD m.queryIdx (0, 0)

/-- `pts_dst`: the destination coordinates of the matched keypoints,
`keypoints_dst[m.trainIdx].pt` for each match `m`. -/
def estPtsDst (env : CVEnv) (dp sp : RawPreview) : List Kp :=
  (matchesOf env dp sp).map fun m => ((env.detect (grayPreview dp)).1).getD m.trainIdx (0, 0)

/-- The homography `cv2.findHomography(pts_src, pts_dst, method=cv2.RANSAC,
ransacReprojThreshold=5.0)` of a run of `register`. -/
def foundHomog (env : CVEnv) (dp sp : RawPreview) : Option Homog :=
  env.findHomography (estPtsSrc env dp sp) (estPtsDst env dp sp) RANSAC 5

/-- The matched-keypoints visualisation
`imutils.resize(cv2.drawMatches(...), width=1000)` of a run of `register`. -/
def visOf (env : CVEnv) (dp sp : RawPreview) : Image :=
  env.resizeWidth
    (env.drawMatches (grayPreview sp) (env.detect (grayPreview sp)).1
      (grayPreview dp) (env.detect (grayPreview dp)).1 (matchesOf env dp sp)) 1000

/-- The cube warped band by band: `result.loc[..., band] =
cv2.warpPerspective(src_cube.sel(band=band).values, homog,
dst_preview.shape[:2][::-1], borderValue=-999)`, assembled with `w` columns
and `h` rows and `nb` bands. -/
def warpCube (env : CVEnv) (src : Cube) (H : Homog) (w h nb : ℕ) : Cube :=
  (List.range h).map fun r =>
    (List.range w).map fun c =>
      (List.range nb).map fun b =>
        Image.px (env.warp (bandImage src b) H (w, h) (-999)) r c

/-- One library call of a `register` run, in the trace order the source
performs them. -/
inductive Event where
  | detectEv (img : Image)
  | matchEv (d1 d2 : List Desc)
  | estimateEv (src dst : List Kp) (method : ℕ) (thresh : ℚ)
  | validateEv (H : Homog)
  | warpPreviewEv
  | warpBandEv (b : ℕ)
  | cropEv
deriving DecidableEq, Repr

/-- The pipeline stage of an event, increasing along the source of
`register`: detect, match, estimate, validate, warp preview, warp bands,
crop. -/
def Event.phase : Event → ℕ
  | .detectEv _ => 0
  | .matchEv _ _ => 1
  | .estimateEv _ _ _ _ => 2
  | .validateEv _ => 3
  | .warpPreviewEv => 4
  | .warpBandEv _ => 5
  | .cropEv => 6

/-- Is the event a perspective warp (of the preview or of a band)? -/
def Event.isWarpEv : Event → Bool
  | .warpPreviewEv => true
  | .warpBandEv _ => true
  | _ => false

/-- Is the event the homography-estimation call? -/
def Event.isEstimateEv : Event → Bool
  | .estimateEv _ _ _ _ => true
  | _ => false

/-- Outcome of `register`: the `(result, result_preview, matched_vis)`
return, the `(None, None, matched_vis)` return after a caught `cv2.error`,
or an uncaught `ValueError` propagating out of `validate_homography`. -/
inductive RegResult where
  | ok (cube : Cube) (preview : Image) (vis : Image)
  | estFailed (vis : Image)
  | valueError (msg : String)
deriving DecidableEq, Repr

/-- Did `register` return a registered cube? -/
def RegResult.isOk : RegResult → Bool
  | .ok _ _ _ => true
  | _ => false

/-- Did `register` return `(None, None, matched_vis)`? -/
def RegResult.isEstFailed : RegResult → Bool
  | .estFailed _ => true
  | _ => false

/-- `register` (src/hyperspec/registration.py lines 51-134) over the library
oracle `env`, with the trace of library calls it performs.  Grayscale
conversion, detection, matching, visualisation, homography estimation,
validation, the preview warp (dsize from the source preview, default border
0), the band-by-band warp (dsize from the destination preview, border -999)
and the optional border-crop loop follow the source statement by
statement. -/
def register (env : CVEnv) (dp : RawPreview) (dc : Cube) (sp : RawPreview)
    (sc : Cube) (crop_registered : Bool) : RegResult × List Event :=
  let srcg := grayPreview sp
  let dstg := grayPreview dp
  let lead : List Event :=
    [Event.detectEv srcg, Event.detectEv dstg,
     Event.matchEv (env.detect srcg).2 (env.detect dstg).2,
     Event.estimateEv (estPtsSrc env dp sp) (estPtsDst env dp sp) RANSAC 5]
  match foundHomog env dp sp with
  | none => (RegResult.estFailed (visOf env dp sp), lead)
  | some H =>
    match validate_homography H with
    | Except.error e => (RegResult.valueError e, lead ++ [Event.validateEv H])
    | Except.ok _ =>
      let resPrev := env.warp srcg H (imCols srcg, imRows srcg) 0
      let nb := cubeBands dc
      let warped := warpCube env sc H (imCols dstg) (imRows dstg) nb
      let cropped := if crop_registered then cropLoop warped else (warped, 0)
      (RegResult.ok cropped.1 resPrev (visOf env dp sp),
        lead ++ [Event.validateEv H, Event.warpPreviewEv]
          ++ (List.range nb).map Event.warpBandEv
          ++ List.replicate cropped.2 Event.cropEv)

/-- The band-by-band warped cube of a successful run of `register` (the value
of `result` after the band loop, before any cropping); `[]` when no
homography was found. -/
def warpedOf (env : CVEnv) (dp : RawPreview) (dc : Cube) (sp : RawPreview)
    (sc : Cube) : Cube :=
  match foundHomog env dp sp with
  | some H =>
    warpCube env sc H (imCols (grayPreview dp)) (imRows (grayPreview dp)) (cubeBands dc)
  | none => []

/-- The identity homography. -/
def idHomog : Homog := ⟨1, 0, 0, 0, 1, 0, 0, 0, 1⟩

/-- An orientation-reversing homography: `det2x2 = -1 < 0`, so
`validate_homography` rejects it with its first check. -/
def badHomog : Homog := ⟨-1, 0, 0, 0, 1, 0, 0, 0, 1⟩

/-- A 3x3 warp output holding the border fill value at its top-left corner;
used as the oracle answer for every warp in the concrete runs below. -/
def exWarpImg : Image := [[-999, 1, 1], [1, 1, 1], [1, 1, 1]]

/-- A concrete oracle: one keypoint and one match, identity homography, and
every warp answering `exWarpImg`. -/
def exEnv : CVEnv where
  detect := fun _ => ([(0, 0)], [[0]])
  bfMatch := fun _ _ => [⟨0, 0⟩]
  findHomography := fun _ _ _ _ => some idHomog
  warp := fun _ _ _ _ => exWarpImg
  drawMatches := fun _ _ _ _ _ => []
  resizeWidth := fun im _ => im

/-- `exEnv` with a failing homography estimation. -/
def exEnvNone : CVEnv :=
  { exEnv with findHomography := fun _ _ _ _ => none }

/-- `exEnv` finding an orientation-reversing homography. -/
def exEnvBad : CVEnv :=
  { exEnv with findHomography := fun _ _ _ _ => some badHomog }

/-- A concrete 3x3 2-D preview. -/
def exPrev : RawPreview := ⟨2, fun _ => [[0, 0, 0], [0, 0, 0], [0, 0, 0]]⟩

/-- A concrete 2x2 3-channel (ndim 3) preview with constant value 6 in every
channel. -/
def exPrev3 : RawPreview := ⟨3, fun _ => [[6, 6], [6, 6]]⟩

/-- A concrete 3x3x1 cube of zeros. -/
def exCube : Cube := List.replicate 3 (List.replicate 3 [0])

/-- A concrete 1x1x1 cube holding a negative element. -/
def exNegCube : Cube := [[[-1]]]

/-- An n-dimensional real array in the statistics helpers: its numpy shape
and its row-major flat data. -/
structure NDArr where
  shape : List ℕ
  data : List ℝ

/-- The numpy shape invariant: the flat data has exactly `shape.prod`
elements. -/
def NDArr.wf (a : NDArr) : Prop := a.data.length = a.shape.prod

/-- `a.shape[-1]`, the length of the last axis (0 for an empty shape). -/
def NDArr.lastDim (a : NDArr) : ℕ := a.shape.getLastD 0

/-- The shape `(-1, a.shape[-1])` that `a.reshape((-1, a.shape[-1]))`
produces: numpy computes the unknown dimension as the total element count
divided by the known one. -/
def reshape2Shape (a : NDArr) : ℕ × ℕ := (a.data.length / a.lastDim, a.lastDim)

/-- The rows of `a.reshape((-1, m))`: consecutive chunks of `m` flat
elements. -/
def chunkList (m : ℕ) (l : List ℝ) : List (List ℝ) :=
  (List.range (l.length / m)).map fun i => (l.drop (i * m)).take m

/-- `np.average` of a vector: its sum divided by its length. -/
noncomputable def avgList (l : List ℝ) : ℝ := l.sum / l.length

/-- The dot product `(arr1 * arr2).sum()` of two equal-length vectors. -/
def dotL (u v : List ℝ) : ℝ := (List.zipWith (· * ·) u v).sum

/-- The sum of squares `np.square(u).sum()` of a vector. -/
def sumSq (u : List ℝ) : ℝ := (u.map fun x => x ^ 2).sum

/-- `_cosine_similarity` (src/hyperspec/stats.py lines 59-76) on one pair of
vectors: numerator and denominator use `np.average` (means, not sums), the
distance is clamped by `np.fmax(np.fmin(..., 2.0), 0)`, and the similarity
is one minus the distance. -/
noncomputable def cosineSim (u v : List ℝ) : ℝ :=
  let uv := avgList (List.zipWith (· * ·) u v)
  let uu := avgList (u.map fun x => x ^ 2)
  let vv := avgList (v.map fun x => x ^ 2)
  1 - max (min (1 - uv / Real.sqrt (uu * vv)) 2) 0

/-- The reference cosine similarity `dot(u, v) / (norm(u) * norm(v))`. -/
noncomputable def cosRef (u v : List ℝ) : ℝ :=
  dotL u v / (Real.sqrt (sumSq u) * Real.sqrt (sumSq v))

/-- `pixelwise_cosine_similarity` (src/hyperspec/stats.py lines 79-104):
reshape both cubes to `(-1, own last axis)` (a numpy `ValueError` when a
last axis is 0 or does not divide the element count), raise `ValueError`
when the two reshaped arrays differ in shape, apply `_cosine_similarity`
row by row, and reshape the result to `cube1.shape[:-1]`. -/
noncomputable def pixelwise_cosine_similarity (c1 c2 : NDArr) :
    Except String NDArr :=
  if c1.lastDim = 0 ∨ ¬ c1.lastDim ∣ c1.data.length then
    Except.error "cannot reshape cube1"
  else if c2.lastDim = 0 ∨ ¬ c2.lastDim ∣ c2.data.length then
    Except.error "cannot reshape cube2"
  else if ¬ reshape2Shape c1 = reshape2Shape c2 then
    Except.error "cube1 and cube2 must have the same shape"
  else if ¬ (List.zipWith cosineSim (chunkList c1.lastDim c1.data)
      (chunkList c2.lastDim c2.data)).length = c1.shape.dropLast.prod then
    Except.error "cannot reshape result"
  else
    Except.ok
      ⟨c1.shape.dropLast,
       List.zipWith cosineSim (chunkList c1.lastDim c1.data)
         (chunkList c2.lastDim c2.data)⟩

/-- Did the call return a value (rather than raise)? -/
def exceptOk {ε α : Type} : Except ε α → Bool
  | Except.ok _ => true
  | Except.error _ => false

/-- The shape of the returned array, `none` when the call raised. -/
def resShape : Except String NDArr → Option (List ℕ)
  | Except.ok r => some r.shape
  | Except.error _ => none

/-- A concrete 2x3 real array. -/
def exArrA : NDArr := ⟨[2, 3], [1, 1, 1, 1, 1, 1]⟩

/-- A concrete 1x2x3 real array: same total size and last axis as `exArrA`,
different leading shape. -/
def exArrB : NDArr := ⟨[1, 2, 3], [1, 1, 1, 1, 1, 1]⟩

/-- A concrete 1x2 array holding the single pixel spectrum (3, 4). -/
def exArrU : NDArr := ⟨[1, 2], [3, 4]⟩

/-- A concrete 1x2 array holding the single pixel spectrum (4, 3). -/
def exArrV : NDArr := ⟨[1, 2], [4, 3]⟩

/-! ## Helper lemmas -/

lemma hasNeg_rows_pos (cu : Cube) (h : hasNeg cu = true) : 0 < cu.length := by
  rcases List.any_eq_true.mp h with ⟨row, hrow, _⟩
  exact List.length_pos.mpr (List.ne_nil_of_mem hrow)

lemma hasNeg_cols_pos (cu : Cube) (hr : rectCube cu) (h : hasNeg cu = true) :
    0 < (cu.headD []).length := by
  rcases List.any_eq_true.mp h with ⟨row, hrow, hrow2⟩
  rcases List.any_eq_true.mp hrow2 with ⟨spec, hspec, _⟩
  have : 0 < row.length := List.length_pos.mpr (List.ne_nil_of_mem hspec)
  rwa [hr row hrow] at this

lemma trim1_length {α : Type} (l : List α) : (trim1 l).length = l.length - 2 := by
  simp [trim1]
  omega

lemma crop1_length (cu : Cube) : (crop1 cu).length = cu.length - 2 := by
  simp [crop1, trim1_length]

lemma cropLoopF_spec (fuel : ℕ) :
    ∀ cu : Cube, cu.length ≤ fuel →
      (cropLoopF fuel cu).1 = crop1^[(cropLoopF fuel cu).2] cu ∧
      hasNeg (cropLoopF fuel cu).1 = false ∧
      ∀ j < (cropLoopF fuel cu).2, hasNeg (crop1^[j] cu) = true := by
  induction fuel with
  | zero =>
    intro cu hcu
    have : cu = [] := List.length_eq_zero.mp (Nat.le_zero.mp hcu)
    subst this
    exact ⟨rfl, rfl, fun j hj => absurd hj (by simp [cropLoopF])⟩
  | succ fuel ih =>
    intro cu hcu
    by_cases hn : hasNeg cu = true
    · have hpos : 0 < cu.length := hasNeg_rows_pos cu hn
      have hle : (crop1 cu).length ≤ fuel := by rw [crop1_length]; omega
      obtain ⟨h1, h2, h3⟩ := ih (crop1 cu) hle
      refine ⟨?_, ?_, ?_⟩
      · simp only [cropLoopF, hn, if_true]
        rw [Function.iterate_succ_apply]
        exact h1
      · simp only [cropLoopF, hn, if_true]
        exact h2
      · simp only [cropLoopF, hn, if_true]
        intro j hj
        cases j with
        | zero => simpa using hn
        | succ j =>
          rw [Function.iterate_succ_apply]
          exact h3 j (Nat.lt_of_succ_lt_succ hj)
    · replace hn : hasNeg cu = false := by simpa using hn
      refine ⟨?_, ?_, ?_⟩ <;> simp [cropLoopF, hn]

lemma cropLoop_spec (cu : Cube) :
    (cropLoop cu).1 = crop1^[(cropLoop cu).2] cu ∧
    hasNeg (cropLoop cu).1 = false ∧
    ∀ j < (cropLoop cu).2, hasNeg (crop1^[j] cu) = true :=
  cropLoopF_spec cu.length cu le_rfl

lemma crop1_row_lengths (cu : Cube) (hr : rectCube cu) :
    ∀ row ∈ crop1 cu, row.length = (cu.headD []).length - 2 := by
  intro row hrow
  simp only [crop1, List.mem_map] at hrow
  obtain ⟨row0, hrow0, rfl⟩ := hrow
  have hmem : row0 ∈ cu := by
    simp only [trim1] at hrow0
    exact List.mem_of_mem_drop (List.dropLast_subset _ hrow0)
  rw [trim1_length, hr row0 hmem]

lemma rectCube_crop1 (cu : Cube) (hr : rectCube cu) : rectCube (crop1 cu) := by
  intro row hrow
  rcases hcc : crop1 cu with _ | ⟨a, t⟩
  · simp [hcc] at hrow
  · have ha : a ∈ crop1 cu := by rw [hcc]; exact List.mem_cons_self a t
    rw [hcc] at hrow
    rw [crop1_row_lengths cu hr row (hcc ▸ hrow), List.headD_cons,
      crop1_row_lengths cu hr a ha]

lemma crop1_cols (cu : Cube) (hr : rectCube cu) (hne : crop1 cu ≠ []) :
    ((crop1 cu).headD []).length = (cu.headD []).length - 2 := by
  rcases hcc : crop1 cu with _ | ⟨a, t⟩
  · exact absurd hcc hne
  · have ha : a ∈ crop1 cu := by rw [hcc]; exact List.mem_cons_self a t
    rw [List.headD_cons, crop1_row_lengths cu hr a ha]

lemma crop1_iterate_dims (cu : Cube) (hr : rectCube cu) :
    ∀ j : ℕ, rectCube (crop1^[j] cu) ∧
      (crop1^[j] cu).length = cu.length - 2 * j ∧
      ((crop1^[j] cu) ≠ [] →
        ((crop1^[j] cu).headD []).length = (cu.headD []).length - 2 * j) := by
  intro j
  induction j with
  | zero => exact ⟨hr, by simp, fun _ => by simp⟩
  | succ j ih =>
    obtain ⟨ihr, ihl, ihc⟩ := ih
    refine ⟨?_, ?_, ?_⟩
    · rw [Function.iterate_succ_apply']
      exact rectCube_crop1 _ ihr
    · rw [Function.iterate_succ_apply', crop1_length, ihl]
      omega
    · intro hne
      rw [Function.iterate_succ_apply'] at hne ⊢
      have hne0 : crop1^[j] cu ≠ [] := by
        intro h0
        rw [h0] at hne
        exact hne rfl
      rw [crop1_cols _ ihr hne, ihc hne0]
      omega

lemma validate_idHomog : validate_homography idHomog = Except.ok () := by
  norm_num [validate_homography, det2x2, det3x3, transformedUnitArea, contourArea,
    unitSquare, perspT, atol, idHomog, List.rotate, abs]

lemma validate_badHomog :
    validate_homography badHomog =
      Except.error "Homography does not preserve orientation" := by
  norm_num [validate_homography, det2x2, badHomog]

lemma foundHomog_exEnv : foundHomog exEnv exPrev exPrev = some idHomog := by decide

lemma register_exEnv_eval :
    (register exEnv exPrev exCube exPrev exCube true).1 =
      RegResult.ok [[[1]]] exWarpImg [] := by
  simp only [register, foundHomog_exEnv, validate_idHomog]
  decide

/-! ## C1 -/

/-- C1: `validate_homography` raises `ValueError` exactly when at least one
of the four geometric checks fails: negative determinant of the upper-left
2x2 submatrix, full determinant within the `np.isclose` tolerance of zero,
area of the transformed unit square outside [0.9, 1.1], or a perspective
entry of absolute value above 0.001; it returns normally otherwise. -/
theorem validate_homography_raises_iff (H : Homog) :
    (∃ e, validate_homography H = Except.error e) ↔
      det2x2 H < 0 ∨ |det3x3 H| ≤ atol ∨ transformedUnitArea H < 9/10 ∨
        11/10 < transformedUnitArea H ∨ 1/1000 < |H.h20| ∨ 1/1000 < |H.h21| := by
  unfold validate_homography
  split_ifs with h1 h2 h3 h4 <;> simp_all <;> tauto

/-- Closed instance of C1 at the orientation-reversing matrix `badHomog`. -/
theorem validate_homography_raises_iff_witness :
    (∃ e, validate_homography badHomog = Except.error e) ↔
      det2x2 badHomog < 0 ∨ |det3x3 badHomog| ≤ atol ∨
        transformedUnitArea badHomog < 9/10 ∨
        11/10 < transformedUnitArea badHomog ∨ 1/1000 < |badHomog.h20| ∨
        1/1000 < |badHomog.h21| :=
  validate_homography_raises_iff badHomog

/-! ## C7 -/

/-- C7: the border-crop loop of `register` terminates within
`ceil(min(height, width) / 2)` iterations on every (rectangular) cube: each
iteration shrinks the first two axes by two, and a cube with an empty axis
has no negative element, so the guard `np.any(result < 0)` fails. -/
theorem cropLoop_iteration_bound (cu : Cube) (h : rectCube cu) :
    (cropLoop cu).2 ≤ (min cu.length ((cu.headD []).length) + 1) / 2 ∧
    (crop1 cu).length = cu.length - 2 ∧
    (∀ row ∈ crop1 cu, row.length = (cu.headD []).length - 2) ∧
    (cu.length = 0 → hasNeg cu = false) ∧
    ((cu.headD []).length = 0 → hasNeg cu = false) := by
  refine ⟨?_, crop1_length cu, crop1_row_lengths cu h, ?_, ?_⟩
  · rcases Nat.eq_zero_or_pos (cropLoop cu).2 with hk | hk
    · omega
    · obtain ⟨-, -, h3⟩ := cropLoop_spec cu
      have hlast := h3 ((cropLoop cu).2 - 1) (by omega)
      obtain ⟨ir, il, ic⟩ := crop1_iterate_dims cu h ((cropLoop cu).2 - 1)
      have hrow : 0 < (crop1^[(cropLoop cu).2 - 1] cu).length :=
        hasNeg_rows_pos _ hlast
      have hcol : 0 < ((crop1^[(cropLoop cu).2 - 1] cu).headD []).length :=
        hasNeg_cols_pos _ ir hlast
      rw [il] at hrow
      rw [ic (by rw [← List.length_pos]; rw [il]; exact hrow)] at hcol
      omega
  · intro h0
    rw [List.length_eq_zero.mp h0]
    rfl
  · intro h0
    rcases hn : hasNeg cu with _ | _
    · rfl
    · exact absurd (hasNeg_cols_pos cu h hn) (by omega)

/-- Closed instance of C7 at a concrete one-element negative cube. -/
theorem cropLoop_iteration_bound_witness :
    (cropLoop exNegCube).2 ≤
        (min exNegCube.length ((exNegCube.headD []).length) + 1) / 2 ∧
    (crop1 exNegCube).length = exNegCube.length - 2 ∧
    (∀ row ∈ crop1 exNegCube, row.length = (exNegCube.headD []).length - 2) ∧
    (exNegCube.length = 0 → hasNeg exNegCube = false) ∧
    ((exNegCube.headD []).length = 0 → hasNeg exNegCube = false) :=
  cropLoop_iteration_bound exNegCube (by unfold rectCube; decide)

/-! ## C4 -/

/-- C4: when `register` with `crop_registered = True` returns a cube, that
cube has no negative element, and it is the band-warped cube with one outer
layer of the first two axes removed per iteration, iterated exactly as long
as a negative element remained. -/
theorem register_crop_trims_negatives (env : CVEnv) (dp : RawPreview)
    (dc : Cube) (sp : RawPreview) (sc : Cube) (cube : Cube) (p v : Image)
    (h : (register env dp dc sp sc true).1 = RegResult.ok cube p v) :
    hasNeg cube = false ∧
      ∃ k, cube = crop1^[k] (warpedOf env dp dc sp sc) ∧
        ∀ j < k, hasNeg (crop1^[j] (warpedOf env dp dc sp sc)) = true := by
  rcases hH : foundHomog env dp sp with _ | H
  · simp [register, hH] at h
  · rcases hV : validate_homography H with e | u
    · simp [register, hH, hV] at h
    · have hwarp : warpedOf env dp dc sp sc =
          warpCube env sc H (imCols (grayPreview dp)) (imRows (grayPreview dp))
            (cubeBands dc) := by
        simp [warpedOf, hH]
      simp only [register, hH, hV, if_true] at h
      obtain ⟨hcube, -, -⟩ := RegResult.ok.inj h
      obtain ⟨s1, s2, s3⟩ :=
        cropLoop_spec (warpCube env sc H (imCols (grayPreview dp))
          (imRows (grayPreview dp)) (cubeBands dc))
      subst hcube
      rw [hwarp]
      exact ⟨s2, (cropLoop _).2, s1, s3⟩

/-- Closed instance of C4: a concrete successful run whose warped cube holds
the border value -999 at one corner, so exactly one crop iteration runs. -/
theorem register_crop_trims_negatives_witness :
    hasNeg [[[1]]] = false ∧
      ∃ k, ([[[1]]] : Cube) = crop1^[k] (warpedOf exEnv exPrev exCube exPrev exCube) ∧
        ∀ j < k, hasNeg (crop1^[j] (warpedOf exEnv exPrev exCube exPrev exCube)) = true :=
  register_crop_trims_negatives exEnv exPrev exCube exPrev exCube
    [[[1]]] exWarpImg [] register_exEnv_eval

/-! ## C3 -/

lemma cubeAt_warpCube (env : CVEnv) (sc : Cube) (H : Homog) (w h nb r c b : ℕ)
    (hr : r < h) (hc : c < w) (hb : b < nb) :
    cubeAt (warpCube env sc H w h nb) r c b =
      Image.px (env.warp (bandImage sc b) H (w, h) (-999)) r c := by
  simp [cubeAt, warpCube, List.getD_eq_getElem?_getD, List.getElem?_map,
    List.getElem?_range, hr, hc, hb]

/-- C3 counterexample: a successful `register` run (with the default
`crop_registered = True`) in which band 0 of the returned cube is not the
warp of band 0 of the source cube: the warp holds the border fill -999 at a
corner, so the returned cube is a cropped, strictly smaller array. -/
theorem register_returned_band_not_warp_cex :
    (register exEnv exPrev exCube exPrev exCube true).1 =
        RegResult.ok [[[1]]] exWarpImg [] ∧
      foundHomog exEnv exPrev exPrev = some idHomog ∧
      bandImage [[[1]]] 0 ≠
        exEnv.warp (bandImage exCube 0) idHomog
          (imCols (grayPreview exPrev), imRows (grayPreview exPrev)) (-999) :=
  ⟨register_exEnv_eval, foundHomog_exEnv, by decide⟩

/-- C3 (amended): when `register` runs with `crop_registered = False` and the
estimated homography validates, the returned cube is exactly the band-by-band
warped cube: every element of band `b` is the warp of band `b` of the source
cube under the one homography, with output size from the destination
preview's shape and border fill -999 (with `crop_registered = True` the
returned cube is the border-cropped version of this warped cube). -/
theorem register_warp_before_crop (env : CVEnv) (dp : RawPreview) (dc : Cube)
    (sp : RawPreview) (sc : Cube) (H : Homog)
    (hH : foundHomog env dp sp = some H)
    (hV : validate_homography H = Except.ok ()) :
    (register env dp dc sp sc false).1 =
        RegResult.ok
          (warpCube env sc H (imCols (grayPreview dp)) (imRows (grayPreview dp))
            (cubeBands dc))
          (env.warp (grayPreview sp) H
            (imCols (grayPreview sp), imRows (grayPreview sp)) 0)
          (visOf env dp sp) ∧
      ∀ b < cubeBands dc, ∀ r < imRows (grayPreview dp),
        ∀ c < imCols (grayPreview dp),
        cubeAt (warpCube env sc H (imCols (grayPreview dp))
            (imRows (grayPreview dp)) (cubeBands dc)) r c b =
          Image.px (env.warp (bandImage sc b) H
            (imCols (grayPreview dp), imRows (grayPreview dp)) (-999)) r c := by
  constructor
  · simp [register, hH, hV]
  · intro b hb r hr c hc
    exact cubeAt_warpCube env sc H _ _ _ r c b hr hc hb

/-- Closed instance of the amended C3 at the concrete oracle `exEnv`. -/
theorem register_warp_before_crop_witness :
    (register exEnv exPrev exCube exPrev exCube false).1 =
        RegResult.ok
          (warpCube exEnv exCube idHomog (imCols (grayPreview exPrev))
            (imRows (grayPreview exPrev)) (cubeBands exCube))
          (exEnv.warp (grayPreview exPrev) idHomog
            (imCols (grayPreview exPrev), imRows (grayPreview exPrev)) 0)
          (visOf exEnv exPrev exPrev) ∧
      ∀ b < cubeBands exCube, ∀ r < imRows (grayPreview exPrev),
        ∀ c < imCols (grayPreview exPrev),
        cubeAt (warpCube exEnv exCube idHomog (imCols (grayPreview exPrev))
            (imRows (grayPreview exPrev)) (cubeBands exCube)) r c b =
          Image.px (exEnv.warp (bandImage exCube b) idHomog
            (imCols (grayPreview exPrev), imRows (grayPreview exPrev)) (-999)) r c :=
  register_warp_before_crop exEnv exPrev exCube exPrev exCube idHomog
    foundHomog_exEnv validate_idHomog

/-! ## C5 -/

/-- C5: `register` returns `(None, None, matched_vis)` exactly when the
homography estimation produces no matrix (the raised `cv2.error` is caught),
while a homography that fails validation makes the `ValueError` of
`validate_homography` propagate out of `register` uncaught. -/
theorem register_failure_modes (env : CVEnv) (dp : RawPreview) (dc : Cube)
    (sp : RawPreview) (sc : Cube) (cr : Bool) :
    ((register env dp dc sp sc cr).1).isEstFailed = (foundHomog env dp sp).isNone ∧
    (foundHomog env dp sp = none →
      (register env dp dc sp sc cr).1 = RegResult.estFailed (visOf env dp sp)) ∧
    ∀ H e, foundHomog env dp sp = some H →
      validate_homography H = Except.error e →
      (register env dp dc sp sc cr).1 = RegResult.valueError e := by
  refine ⟨?_, ?_, ?_⟩
  · rcases hH : foundHomog env dp sp with _ | H
    · simp [register, hH, RegResult.isEstFailed]
    · rcases hV : validate_homography H with e | u
      · simp [register, hH, hV, RegResult.isEstFailed]
      · simp [register, hH, hV, RegResult.isEstFailed]
  · intro hH
    simp [register, hH]
  · intro H e hH hV
    simp [register, hH, hV]

/-- Closed instance of C5: a failing estimation returns the
`(None, None, matched_vis)` triple, and an orientation-reversing homography
makes `register` end in the propagated `ValueError`. -/
theorem register_failure_modes_witness :
    (register exEnvNone exPrev exCube exPrev exCube true).1 =
        RegResult.estFailed (visOf exEnvNone exPrev exPrev) ∧
      (register exEnvBad exPrev exCube exPrev exCube true).1 =
        RegResult.valueError "Homography does not preserve orientation" :=
  ⟨(register_failure_modes exEnvNone exPrev exCube exPrev exCube true).2.1
      (by decide),
   (register_failure_modes exEnvBad exPrev exCube exPrev exCube true).2.2 badHomog
      "Homography does not preserve orientation" (by decide) validate_badHomog⟩

/-! ## C6 -/

/-- C6: every call of `register` performs exactly one homography-estimation
call, on the matched keypoint coordinates (source keypoints at each match's
`queryIdx`, destination keypoints at its `trainIdx`), with the `cv2.RANSAC`
method flag and reprojection threshold 5.0. -/
theorem register_ransac_estimation (env : CVEnv) (dp : RawPreview) (dc : Cube)
    (sp : RawPreview) (sc : Cube) (cr : Bool) :
    Event.estimateEv (estPtsSrc env dp sp) (estPtsDst env dp sp) RANSAC 5 ∈
        (register env dp dc sp sc cr).2 ∧
      ∀ ev ∈ (register env dp dc sp sc cr).2, ev.isEstimateEv = true →
        ev = Event.estimateEv (estPtsSrc env dp sp) (estPtsDst env dp sp) RANSAC 5 := by
  rcases hH : foundHomog env dp sp with _ | H
  · refine ⟨by simp [register, hH], ?_⟩
    intro ev hev hest
    simp only [register, hH] at hev
    simp only [List.mem_cons, List.not_mem_nil, or_false] at hev
    rcases hev with rfl | rfl | rfl | rfl <;>
      first
        | rfl
        | simp [Event.isEstimateEv] at hest
  · rcases hV : validate_homography H with e | u
    · refine ⟨by simp [register, hH, hV], ?_⟩
      intro ev hev hest
      simp only [register, hH, hV] at hev
      simp only [List.cons_append, List.nil_append, List.mem_cons,
        List.not_mem_nil, or_false] at hev
      rcases hev with rfl | rfl | rfl | rfl | rfl <;>
        first
          | rfl
          | simp [Event.isEstimateEv] at hest
    · refine ⟨by simp [register, hH, hV], ?_⟩
      intro ev hev hest
      simp only [register, hH, hV] at hev
      simp only [List.cons_append, List.nil_append, List.mem_cons,
        List.mem_append, List.mem_map, List.mem_range, List.mem_replicate] at hev
      rcases hev with rfl | rfl | rfl | rfl | rfl | rfl | ⟨b, -, rfl⟩ | ⟨-, rfl⟩ <;>
        first
          | rfl
          | simp [Event.isEstimateEv] at hest

/-- Closed instance of C6 at the concrete oracle `exEnv`. -/
theorem register_ransac_estimation_witness :
    Event.estimateEv (estPtsSrc exEnv exPrev exPrev) (estPtsDst exEnv exPrev exPrev)
        RANSAC 5 ∈ (register exEnv exPrev exCube exPrev exCube true).2 ∧
      ∀ ev ∈ (register exEnv exPrev exCube exPrev exCube true).2,
        ev.isEstimateEv = true →
        ev = Event.estimateEv (estPtsSrc exEnv exPrev exPrev)
          (estPtsDst exEnv exPrev exPrev) RANSAC 5 :=
  register_ransac_estimation exEnv exPrev exCube exPrev exCube true

/-! ## C8 -/

/-- C8: keypoint detection always runs on the grayscale previews: the first
two library calls are the detections on `grayPreview` of the source and the
destination previews, and `grayPreview` is the `cv2.cvtColor(...,
COLOR_BGR2GRAY)` single-channel conversion exactly when the argument's
`ndim` is not 2 (and the unchanged 2-D image otherwise). -/
theorem register_detects_on_grayscale (env : CVEnv) (dp : RawPreview)
    (dc : Cube) (sp : RawPreview) (sc : Cube) (cr : Bool) :
    ((register env dp dc sp sc cr).2.take 2) =
        [Event.detectEv (grayPreview sp), Event.detectEv (grayPreview dp)] ∧
      (dp.ndim = 2 → grayPreview dp = dp.data 0) ∧
      (dp.ndim ≠ 2 → grayPreview dp = cvtColorBGR2GRAY dp) ∧
      (sp.ndim = 2 → grayPreview sp = sp.data 0) ∧
      (sp.ndim ≠ 2 → grayPreview sp = cvtColorBGR2GRAY sp) := by
  refine ⟨?_, fun h => by simp [grayPreview, h], fun h => by simp [grayPreview, h],
    fun h => by simp [grayPreview, h], fun h => by simp [grayPreview, h]⟩
  rcases hH : foundHomog env dp sp with _ | H
  · simp [register, hH]
  · rcases hV : validate_homography H with e | u
    · simp [register, hH, hV]
    · simp [register, hH, hV]

/-- Closed instance of C8 at a 3-channel (ndim 3) preview: detection runs on
its grayscale conversion. -/
theorem register_detects_on_grayscale_witness :
    ((register exEnv exPrev3 exCube exPrev3 exCube true).2.take 2) =
        [Event.detectEv (grayPreview exPrev3), Event.detectEv (grayPreview exPrev3)] ∧
      grayPreview exPrev3 = cvtColorBGR2GRAY exPrev3 :=
  ⟨(register_detects_on_grayscale exEnv exPrev3 exCube exPrev3 exCube true).1,
   (register_detects_on_grayscale exEnv exPrev3 exCube exPrev3 exCube true).2.2.1
      (by decide)⟩

/-! ## C2 -/

lemma pairwise_le_replicate (n a : ℕ) :
    List.Pairwise (· ≤ ·) (List.replicate n a) := by
  induction n with
  | zero => simp
  | succ n ih =>
    rw [List.replicate_succ]
    exact List.Pairwise.cons
      (fun b hb => le_of_eq (List.eq_of_mem_replicate hb).symm) ih

lemma pairwise_phase_shape (nb k : ℕ) :
    List.Pairwise (· ≤ ·)
      (([0, 0, 1, 2, 3, 4] : List ℕ) ++
        (List.replicate nb 5 ++ List.replicate k 6)) := by
  refine List.pairwise_append.mpr ⟨by decide, ?_, ?_⟩
  · refine List.pairwise_append.mpr
      ⟨pairwise_le_replicate nb 5, pairwise_le_replicate k 6, ?_⟩
    intro x hx y hy
    rw [List.eq_of_mem_replicate hx, List.eq_of_mem_replicate hy]
    omega
  · intro x hx y hy
    have hy5 : y = 5 ∨ y = 6 := by
      rcases List.mem_append.mp hy with h | h
      · exact Or.inl (List.eq_of_mem_replicate h)
      · exact Or.inr (List.eq_of_mem_replicate h)
    fin_cases hx <;> omega

/-- C2: `register` performs its library calls in the pipeline order
detect, match, estimate, validate, warp (preview first, then the bands),
crop: the trace's phases are monotone, the first four calls are always the
two detections, the matching and the estimation, and a warp occurs in the
trace exactly when `register` returns a registered cube (in particular
never when validation rejects the homography; cropping events only follow
the band warps). -/
theorem register_pipeline_order (env : CVEnv) (dp : RawPreview) (dc : Cube)
    (sp : RawPreview) (sc : Cube) (cr : Bool) :
    List.Pairwise (· ≤ ·) (((register env dp dc sp sc cr).2).map Event.phase) ∧
      (((register env dp dc sp sc cr).2.take 4).map Event.phase) = [0, 0, 1, 2] ∧
      ((register env dp dc sp sc cr).2.any Event.isWarpEv) =
        (register env dp dc sp sc cr).1.isOk := by
  rcases hH : foundHomog env dp sp with _ | H
  · refine ⟨?_, ?_, ?_⟩
    · have hmap : ((register env dp dc sp sc cr).2).map Event.phase = [0, 0, 1, 2] := by
        simp [register, hH, Event.phase]
      rw [hmap]
      decide
    · simp [register, hH, Event.phase]
    · simp [register, hH, Event.isWarpEv, RegResult.isOk]
  · rcases hV : validate_homography H with e | u
    · refine ⟨?_, ?_, ?_⟩
      · have hmap : ((register env dp dc sp sc cr).2).map Event.phase =
            [0, 0, 1, 2, 3] := by
          simp [register, hH, hV, Event.phase]
        rw [hmap]
        decide
      · simp [register, hH, hV, Event.phase]
      · simp [register, hH, hV, Event.isWarpEv, RegResult.isOk]
    · refine ⟨?_, ?_, ?_⟩
      · have hmap : ((register env dp dc sp sc cr).2).map Event.phase =
            ([0, 0, 1, 2, 3, 4] : List ℕ) ++
              (List.replicate (cubeBands dc) 5 ++
                List.replicate
                  (if cr then
                      cropLoop (warpCube env sc H (imCols (grayPreview dp))
                        (imRows (grayPreview dp)) (cubeBands dc))
                    else
                      (warpCube env sc H (imCols (grayPreview dp))
                        (imRows (grayPreview dp)) (cubeBands dc), 0)).2 6) := by
          have hconst : Event.phase ∘ Event.warpBandEv = fun _ => 5 := rfl
          simp [register, hH, hV, Event.phase, List.map_append, List.map_map,
            hconst, List.map_const', List.map_replicate]
        rw [hmap]
        exact pairwise_phase_shape _ _
      · simp [register, hH, hV, Event.phase]
      · simp [register, hH, hV, Event.isWarpEv, RegResult.isOk]

/-- Closed instance of C2 at the concrete oracle `exEnv`. -/
theorem register_pipeline_order_witness :
    List.Pairwise (· ≤ ·)
        (((register exEnv exPrev exCube exPrev exCube true).2).map Event.phase) ∧
      (((register exEnv exPrev exCube exPrev exCube true).2.take 4).map Event.phase) =
        [0, 0, 1, 2] ∧
      ((register exEnv exPrev exCube exPrev exCube true).2.any Event.isWarpEv) =
        (register exEnv exPrev exCube exPrev exCube true).1.isOk :=
  register_pipeline_order exEnv exPrev exCube exPrev exCube true

/-! ## C9 and C10 -/

lemma ndarr_len (a : NDArr) (ha : a.wf) (hm : a.lastDim ≠ 0) :
    a.data.length = a.shape.dropLast.prod * a.lastDim := by
  rcases List.eq_nil_or_concat a.shape with h0 | ⟨L, b, hLb⟩
  · rw [NDArr.lastDim, h0] at hm
    simp at hm
  · rw [NDArr.wf] at ha
    rw [ha, hLb, NDArr.lastDim, hLb]
    simp [List.concat_eq_append]

lemma chunkList_length (m : ℕ) (l : List ℝ) :
    (chunkList m l).length = l.length / m := by
  simp [chunkList]

lemma chunkList_mem_length (m : ℕ) (l : List ℝ) (hm : m ∣ l.length) :
    ∀ u ∈ chunkList m l, u.length = m := by
  intro u hu
  simp only [chunkList, List.mem_map, List.mem_range] at hu
  obtain ⟨i, hi, rfl⟩ := hu
  have h1 : (i + 1) * m ≤ l.length := by
    calc (i + 1) * m ≤ l.length / m * m :=
          Nat.mul_le_mul_right m (Nat.succ_le_of_lt hi)
      _ = l.length := Nat.div_mul_cancel hm
  rw [Nat.succ_mul] at h1
  simp only [List.length_take, List.length_drop]
  omega

lemma zipWith_congr_mem {α β : Type} (f g : α → α → β) :
    ∀ (l1 l2 : List α), (∀ u ∈ l1, ∀ v ∈ l2, f u v = g u v) →
      List.zipWith f l1 l2 = List.zipWith g l1 l2 := by
  intro l1
  induction l1 with
  | nil => intro l2 h; simp
  | cons a t ih =>
    intro l2 h
    cases l2 with
    | nil => simp
    | cons b s =>
      simp only [List.zipWith_cons_cons]
      refine congrArg₂ List.cons (h a (by simp) b (by simp)) (ih s ?_)
      intro x hx y hy
      exact h x (List.mem_cons_of_mem a hx) y (List.mem_cons_of_mem b hy)

lemma one_sub_clamp (x : ℝ) :
    1 - max (min (1 - x) 2) 0 = max (min x 1) (-1) := by
  rcases le_total x (-1) with h | h
  · rw [min_eq_right (by linarith : (2:ℝ) ≤ 1 - x),
      max_eq_left (by norm_num : (0:ℝ) ≤ 2),
      min_eq_left (by linarith : x ≤ (1:ℝ)), max_eq_right h]
    norm_num
  · rcases le_total x 1 with h2 | h2
    · rw [min_eq_left (by linarith : (1:ℝ) - x ≤ 2),
        max_eq_left (by linarith : (0:ℝ) ≤ 1 - x),
        min_eq_left h2, max_eq_left (by linarith : (-1:ℝ) ≤ x)]
      ring
    · rw [min_eq_left (by linarith : (1:ℝ) - x ≤ 2),
        max_eq_right (by linarith : 1 - x ≤ (0:ℝ)),
        min_eq_right h2, max_eq_left (by norm_num : (-1:ℝ) ≤ 1)]
      norm_num

lemma cosineSim_eq_clamped (u v : List ℝ) (hlen : u.length = v.length)
    (hu : 0 < sumSq u) (hv : 0 < sumSq v) :
    cosineSim u v = max (min (cosRef u v) 1) (-1) := by
  have hne : u ≠ [] := by
    rintro rfl
    simp [sumSq] at hu
  have hn0 : (0:ℝ) < u.length := by
    exact_mod_cast List.length_pos.mpr hne
  have hzl : (List.zipWith (· * ·) u v).length = u.length := by
    rw [List.length_zipWith, hlen, min_self]
  have key : avgList (List.zipWith (· * ·) u v) /
      Real.sqrt (avgList (u.map fun x => x ^ 2) * avgList (v.map fun x => x ^ 2)) =
      cosRef u v := by
    have hsu : Real.sqrt (sumSq u) ≠ 0 := ne_of_gt (Real.sqrt_pos.mpr hu)
    have hsv : Real.sqrt (sumSq v) ≠ 0 := ne_of_gt (Real.sqrt_pos.mpr hv)
    have havg_u : avgList (u.map fun x => x ^ 2) = sumSq u / u.length := by
      simp [avgList, sumSq]
    have havg_v : avgList (v.map fun x => x ^ 2) = sumSq v / v.length := by
      simp [avgList, sumSq]
    have havg_uv : avgList (List.zipWith (· * ·) u v) = dotL u v / u.length := by
      simp [avgList, dotL, hzl]
    rw [havg_u, havg_v, havg_uv, ← hlen, div_mul_div_comm,
      Real.sqrt_div (mul_nonneg hu.le hv.le), Real.sqrt_mul hu.le,
      Real.sqrt_mul_self hn0.le, cosRef]
    field_simp
  rw [show cosineSim u v =
      1 - max (min (1 - avgList (List.zipWith (· * ·) u v) /
        Real.sqrt (avgList (u.map fun x => x ^ 2) *
          avgList (v.map fun x => x ^ 2))) 2) 0 from rfl]
  rw [key, one_sub_clamp]

/-- C9: on equal-shape cubes whose pixel spectra all have nonzero norm,
`pixelwise_cosine_similarity` returns at each pixel the reference cosine
similarity `dot(u, v) / (norm(u) * norm(v))` clamped into [-1, 1]: the
per-vector averaging factors of `_cosine_similarity` cancel. -/
theorem pixelwise_cosine_similarity_clamped_cosine (c1 c2 : NDArr)
    (h1 : c1.wf) (h2 : c2.wf) (hs : c1.shape = c2.shape) (hm : c1.lastDim ≠ 0)
    (hnu : ∀ u ∈ chunkList c1.lastDim c1.data, 0 < sumSq u)
    (hnv : ∀ v ∈ chunkList c2.lastDim c2.data, 0 < sumSq v) :
    pixelwise_cosine_similarity c1 c2 =
      Except.ok
        ⟨c1.shape.dropLast,
         List.zipWith (fun u v => max (min (cosRef u v) 1) (-1))
           (chunkList c1.lastDim c1.data) (chunkList c2.lastDim c2.data)⟩ := by
  have hld : c1.lastDim = c2.lastDim := by
    rw [NDArr.lastDim, NDArr.lastDim, hs]
  have hm2 : c2.lastDim ≠ 0 := hld ▸ hm
  have hlen1 := ndarr_len c1 h1 hm
  have hlen2 := ndarr_len c2 h2 hm2
  have hdvd1 : c1.lastDim ∣ c1.data.length := ⟨c1.shape.dropLast.prod, by
    rw [hlen1]; ring⟩
  have hdvd2 : c2.lastDim ∣ c2.data.length := ⟨c2.shape.dropLast.prod, by
    rw [hlen2]; ring⟩
  have hdl : c1.data.length = c2.data.length := by
    rw [hlen1, hlen2, hs, hld]
  have hshape_eq : reshape2Shape c1 = reshape2Shape c2 := by
    simp [reshape2Shape, hdl, hld]
  have hzlen : (List.zipWith cosineSim (chunkList c1.lastDim c1.data)
      (chunkList c2.lastDim c2.data)).length = c1.shape.dropLast.prod := by
    rw [List.length_zipWith, chunkList_length, chunkList_length, ← hld, ← hdl,
      min_self, hlen1, Nat.mul_div_cancel _ (Nat.pos_of_ne_zero hm)]
  unfold pixelwise_cosine_similarity
  rw [if_neg (by simp [hm, hdvd1]), if_neg (by simp [hm2, hdvd2]),
    if_neg (by simp [hshape_eq]), if_neg (by simp [hzlen])]
  refine congrArg Except.ok (congrArg (NDArr.mk c1.shape.dropLast) ?_)
  apply zipWith_congr_mem
  intro x hx y hy
  exact cosineSim_eq_clamped x y
    (by rw [chunkList_mem_length _ _ hdvd1 x hx, chunkList_mem_length _ _ hdvd2 y hy, hld])
    (hnu x hx) (hnv y hy)

/-- Closed instance of C9 at the single-pixel cubes (3, 4) and (4, 3). -/
theorem pixelwise_cosine_similarity_clamped_cosine_witness :
    pixelwise_cosine_similarity exArrU exArrV =
      Except.ok
        ⟨exArrU.shape.dropLast,
         List.zipWith (fun u v => max (min (cosRef u v) 1) (-1))
           (chunkList exArrU.lastDim exArrU.data)
           (chunkList exArrV.lastDim exArrV.data)⟩ :=
  pixelwise_cosine_similarity_clamped_cosine exArrU exArrV rfl rfl rfl (by decide)
    (by
      have hch : chunkList exArrU.lastDim exArrU.data = [[(3:ℝ), 4]] := by
        norm_num [chunkList, exArrU, NDArr.lastDim, List.range_succ]
      rw [hch]
      intro x hx
      simp only [List.mem_singleton] at hx
      subst hx
      norm_num [sumSq])
    (by
      have hch : chunkList exArrV.lastDim exArrV.data = [[(4:ℝ), 3]] := by
        norm_num [chunkList, exArrV, NDArr.lastDim, List.range_succ]
      rw [hch]
      intro x hx
      simp only [List.mem_singleton] at hx
      subst hx
      norm_num [sumSq])

/-- C10: with positive last axes, `pixelwise_cosine_similarity` raises
`ValueError` exactly when the two inputs, reshaped each to
`(-1, own last axis)`, differ in shape; otherwise it returns an array of
`cube1`'s leading shape, so cubes of different leading shapes are accepted
whenever the reshapes agree. -/
theorem pixelwise_cosine_similarity_value_error_iff (c1 c2 : NDArr)
    (h1 : c1.wf) (h2 : c2.wf) (hm1 : c1.lastDim ≠ 0) (hm2 : c2.lastDim ≠ 0) :
    (exceptOk (pixelwise_cosine_similarity c1 c2) = true ↔
      reshape2Shape c1 = reshape2Shape c2) ∧
    resShape (pixelwise_cosine_similarity c1 c2) =
      (if reshape2Shape c1 = reshape2Shape c2 then some c1.shape.dropLast
       else none) := by
  have hlen1 := ndarr_len c1 h1 hm1
  have hlen2 := ndarr_len c2 h2 hm2
  have hdvd1 : c1.lastDim ∣ c1.data.length := ⟨c1.shape.dropLast.prod, by
    rw [hlen1]; ring⟩
  have hdvd2 : c2.lastDim ∣ c2.data.length := ⟨c2.shape.dropLast.prod, by
    rw [hlen2]; ring⟩
  by_cases heq : reshape2Shape c1 = reshape2Shape c2
  · have hld : c1.lastDim = c2.lastDim := congrArg Prod.snd heq
    have hrows : c1.data.length / c1.lastDim = c2.data.length / c2.lastDim :=
      congrArg Prod.fst heq
    have hzlen : (List.zipWith cosineSim (chunkList c1.lastDim c1.data)
        (chunkList c2.lastDim c2.data)).length = c1.shape.dropLast.prod := by
      rw [List.length_zipWith, chunkList_length, chunkList_length, ← hrows,
        min_self, hlen1, Nat.mul_div_cancel _ (Nat.pos_of_ne_zero hm1)]
    unfold pixelwise_cosine_similarity
    rw [if_neg (by simp [hm1, hdvd1]), if_neg (by simp [hm2, hdvd2]),
      if_neg (by simp [heq]), if_neg (by simp [hzlen])]
    simp [exceptOk, resShape, heq]
  · unfold pixelwise_cosine_similarity
    rw [if_neg (by simp [hm1, hdvd1]), if_neg (by simp [hm2, hdvd2]), if_pos heq]
    simp [exceptOk, resShape, heq]

/-- Closed instance of C10 at a 2x3 and a 1x2x3 cube: different leading
shapes, same reshapes, so the call is accepted and keeps `cube1`'s leading
shape. -/
theorem pixelwise_cosine_similarity_value_error_iff_witness :
    (exceptOk (pixelwise_cosine_similarity exArrA exArrB) = true ↔
      reshape2Shape exArrA = reshape2Shape exArrB) ∧
    resShape (pixelwise_cosine_similarity exArrA exArrB) =
      (if reshape2Shape exArrA = reshape2Shape exArrB then some exArrA.shape.dropLast
       else none) :=
  pixelwise_cosine_similarity_value_error_iff exArrA exArrB rfl rfl
    (by decide) (by decide)
